import Mathlib

/-!
Shallow embedding of `src/ObjectTracker.cpp` from the VC4CL OpenCL
implementation: a process-wide registry tracking the lifetime of
reference-counted API objects.

The C++ registry stores its objects in a `std::set<std::unique_ptr<BaseObject>>`
(`liveObjects`), ordered by the raw pointer value of the `unique_ptr` (the
object's address, which is its identity).  We model:

* `BaseObject` as a structure carrying the identity (the pointer value, a
  `Nat`), the human-readable `typeName` and the informational
  `referenceCount` — exactly the capability surface the registry reads
  (`obj->typeName`, `obj->referenceCount`, `ptr.get()`).
* the collection as a list sorted strictly by identity (the iteration order
  of the `std::set`); the sortedness invariant `IdSorted` is the data-structure
  invariant `std::set` maintains on its own.
* each member function of `ObjectTracker` as a pure function on that list,
  translated line by line from the source.
-/

namespace VC4CL

/-- Model of the C++ `BaseObject` capability surface: `id` is the stable
identity (the object's address, i.e. the value of `ptr.get()`),
`typeName` is the reported type name and `referenceCount` the reported
reference count. -/
structure BaseObject where
  id : Nat
  typeName : String
  referenceCount : Nat
deriving DecidableEq, Repr

/-- Registry collection: model of the `std::set<std::unique_ptr<BaseObject>>`
member `liveObjects`, as the list of stored objects in the set's iteration
order (ascending pointer value). -/
abbrev Tracker := List BaseObject

/-- Identities currently stored, in iteration order. -/
def trackedIds (s : Tracker) : List Nat := s.map (fun o => o.id)

/-- The ordering invariant of the `std::set`: entries appear in strictly
ascending identity (pointer) order.  Every reachable registry state
satisfies it. -/
def IdSorted (s : Tracker) : Prop := s.Pairwise (fun a b => a.id < b.id)

/-- Model of `std::set::emplace` on a set of `unique_ptr` ordered by pointer
value: insert `obj` at its sorted position; if an entry with the same
identity already exists the insertion fails and the set is unchanged. -/
def insertSorted (obj : BaseObject) : Tracker → Tracker
  | [] => [obj]
  | x :: xs =>
    if obj.id < x.id then obj :: x :: xs
    else if obj.id = x.id then x :: xs
    else x :: insertSorted obj xs

/-- Model of `ObjectTracker::addObject` (ObjectTracker.cpp:45-52): under the
tracker lock, `liveObjects.emplace(obj)`. -/
def addObject (s : Tracker) (obj : BaseObject) : Tracker := insertSorted obj s

/-- Model of `ObjectTracker::removeObject` (ObjectTracker.cpp:54-66): under
the tracker lock, `std::find_if` locates the first stored entry whose raw
pointer equals `obj` and erases it; when no entry matches, nothing is
erased (only an optional debug trace is emitted). -/
def removeObject (s : Tracker) (objId : Nat) : Tracker :=
  match s with
  | [] => []
  | x :: xs => if x.id = objId then xs else x :: removeObject xs objId

/-- Model of `ObjectTracker::iterateObjects` (ObjectTracker.cpp:68-76): under
the tracker lock, for each stored object in iteration order the callback is
invoked with the user data, the object's base pointer (its identity), its
type name and its reference count.  The threaded value `ud` models the
mutable state behind `void* userData`. -/
def iterateObjects {α : Type} (s : Tracker) (func : α → Nat → String → Nat → α) (userData : α) : α :=
  s.foldl (fun ud o => func ud o.id o.typeName o.referenceCount) userData

/-- Model of `ObjectTracker::findTrackedObject` (ObjectTracker.cpp:78-88):
under the tracker lock, scan the stored objects in iteration order and
return the first satisfying the predicate, or `none` (`nullptr`). -/
def findTrackedObject (s : Tracker) (pred : BaseObject → Bool) : Option BaseObject :=
  match s with
  | [] => none
  | o :: rest => if pred o then some o else findTrackedObject rest pred

/-- One iteration of the destructor's drain loop
(`liveObjects.erase(--liveObjects.end())`, ObjectTracker.cpp:37-42): the
last (highest-address) current entry is erased; destroying that object runs
its destructor, whose side effects on the remaining collection are modelled
by `effect` (the destructor may call back into `removeObject` for other
objects).  On an empty collection the loop guard stops, so the state is
returned unchanged. -/
def sweepStep (effect : BaseObject → Tracker → Tracker) (s : Tracker) : Tracker :=
  match s.getLast? with
  | none => s
  | some o => effect o s.dropLast

/-- The destructor's `while(!liveObjects.empty())` drain loop
(ObjectTracker.cpp:37-42), with explicit fuel: each iteration re-checks the
current collection state and erases one current entry (plus whatever the
destructor side effects remove). -/
def sweepLoop (effect : BaseObject → Tracker → Tracker) : Nat → Tracker → Tracker
  | 0, s => s
  | n + 1, s => if s.isEmpty then s else sweepLoop effect n (sweepStep effect s)

/-- Model of the leak-report block of `ObjectTracker::~ObjectTracker`
(ObjectTracker.cpp:24-32): only when debug logging is enabled and the
collection is non-empty, one line per remaining object is printed, carrying
the object's reference count and type name (`obj->referenceCount`,
`obj->typeName`; the identity/pointer is not printed). -/
def shutdownLeakReports (debugEnabled : Bool) (s : Tracker) : List (Nat × String) :=
  if debugEnabled && !s.isEmpty then s.map (fun o => (o.referenceCount, o.typeName)) else []

/-- Model of `VC4CL_FUNC(clTrackLiveObjectsAltera)` (ObjectTracker.cpp:90-94):
the body is empty apart from the API-call trace — object tracking is always
enabled, so the registry state is returned unchanged for every platform
argument. -/
def clTrackLiveObjectsAltera (platform : Nat) (s : Tracker) : Tracker := s

/-- Model of `VC4CL_FUNC(clReportLiveObjectsAltera)` (ObjectTracker.cpp:96-104):
forwards the report callback and user data to `iterateObjects` on the live
tracker. -/
def clReportLiveObjectsAltera {α : Type} (platform : Nat) (s : Tracker)
    (report : α → Nat → String → Nat → α) (userData : α) : α :=
  iterateObjects s report userData

/-- Collecting visitor used to observe what `iterateObjects` reports: appends
each visited (identity, type name, reference count) triple. -/
def collectReports (acc : List (Nat × String × Nat)) (i : Nat) (t : String) (r : Nat) :
    List (Nat × String × Nat) :=
  acc ++ [(i, t, r)]

/-- A client call into the registry: `add` hands a freshly allocated object
to `addObject`, `remove` passes the identity of an object to
`removeObject`. -/
inductive TrackerOp
  | add (obj : BaseObject)
  | remove (objId : Nat)
deriving DecidableEq, Repr

/-- Apply one client call to the registry state. -/
def applyOp (s : Tracker) : TrackerOp → Tracker
  | TrackerOp.add obj => addObject s obj
  | TrackerOp.remove objId => removeObject s objId

/-- Run a sequence of client calls against the initially empty registry. -/
def runOps (ops : List TrackerOp) : Tracker := (ops).foldl applyOp []

/-- One step of the specification-level liveness account for identity `i`:
an add of `i` makes it live, a remove of `i` makes it dead. -/
def liveStep (b : Bool) (i : Nat) : TrackerOp → Bool
  | TrackerOp.add obj => b || (obj.id == i)
  | TrackerOp.remove objId => b && !(objId == i)

/-- Identity `i` has been added and not removed afterwards, over a call
sequence starting from the empty registry. -/
def liveAfter (ops : List TrackerOp) (i : Nat) : Bool :=
  (ops).foldl (fun b op => liveStep b i op) false

/-- Identities of the objects handed to `add` over a call sequence. -/
def addedIds (ops : List TrackerOp) : List Nat :=
  (ops).filterMap (fun op => match op with
    | TrackerOp.add obj => some obj.id
    | TrackerOp.remove _ => none)

/-- Events relevant to the locking discipline, read off each function body of
ObjectTracker.cpp: `acquire` and `release` model the scope of a
`std::lock_guard<std::recursive_mutex>` on `trackerMutex`; `touch` models a
read or write of the `liveObjects` collection. -/
inductive LockEvent
  | acquire
  | touch
  | release
deriving DecidableEq, Repr

/-- Event trace of `addObject` (ObjectTracker.cpp:45-52): `lock_guard`
acquisition, `liveObjects.emplace(obj)`, release at scope end. -/
def addObjectEvents : List LockEvent := [LockEvent.acquire, LockEvent.touch, LockEvent.release]

/-- Event trace of `removeObject` (ObjectTracker.cpp:54-66): `lock_guard`
acquisition, the `find_if` scan, the conditional `erase`, release at scope
end. -/
def removeObjectEvents : List LockEvent :=
  [LockEvent.acquire, LockEvent.touch, LockEvent.touch, LockEvent.release]

/-- Event trace of `iterateObjects` (ObjectTracker.cpp:68-76): `lock_guard`
acquisition, the range-for over `liveObjects`, release at scope end. -/
def iterateObjectsEvents : List LockEvent :=
  [LockEvent.acquire, LockEvent.touch, LockEvent.release]

/-- Event trace of `findTrackedObject` (ObjectTracker.cpp:78-88):
`lock_guard` acquisition, the range-for over `liveObjects`, release at
scope end. -/
def findTrackedObjectEvents : List LockEvent :=
  [LockEvent.acquire, LockEvent.touch, LockEvent.release]

/-- Event trace of the destructor `~ObjectTracker` (ObjectTracker.cpp:20-43):
the `liveObjects.empty()` check and leak-report loop, the `empty()` loop
guard, and the `erase(--liveObjects.end())` calls — the body contains no
`lock_guard`, so no acquire event occurs. -/
def shutdownSweepEvents : List LockEvent :=
  [LockEvent.touch, LockEvent.touch, LockEvent.touch]

/-- Decides the claimed discipline on one operation's event trace: the
collection is not touched before the lock is first acquired. -/
def acquiresBeforeTouch : List LockEvent → Bool
  | [] => true
  | LockEvent.acquire :: _ => true
  | LockEvent.touch :: _ => false
  | LockEvent.release :: rest => acquiresBeforeTouch rest

/-- Concrete object standing for a device handle, used in witnesses. -/
def objDevice : BaseObject := ⟨1, "device", 1⟩

/-- Concrete object standing for a context handle, used in witnesses. -/
def objContext : BaseObject := ⟨2, "context", 1⟩

/-- Concrete object standing for a queue handle, used in witnesses. -/
def objQueue : BaseObject := ⟨3, "queue", 2⟩

/-- Concrete destructor side effect used in witnesses: destroying any object
also removes the entry with identity 1 from the remaining collection (a
child releasing its parent device). -/
def exampleEffect (o : BaseObject) (t : Tracker) : Tracker :=
  t.filter (fun x => !(x.id == 1))

/-! Helper lemmas about the embedded operations. -/

@[simp]
theorem trackedIds_nil : trackedIds [] = [] := rfl

@[simp]
theorem trackedIds_cons (x : BaseObject) (xs : Tracker) :
    trackedIds (x :: xs) = x.id :: trackedIds xs := rfl

/-- Membership after `insertSorted`, at the object level. -/
theorem mem_insertSorted {y obj : BaseObject} {s : Tracker} (h : y ∈ insertSorted obj s) :
    y = obj ∨ y ∈ s := by
  induction s with
  | nil => simpa [insertSorted] using h
  | cons x xs ih =>
    by_cases h1 : obj.id < x.id
    · rw [insertSorted, if_pos h1] at h
      simpa using h
    · by_cases h2 : obj.id = x.id
      · rw [insertSorted, if_neg h1, if_pos h2] at h
        exact Or.inr h
      · rw [insertSorted, if_neg h1, if_neg h2] at h
        rcases List.mem_cons.mp h with h3 | h3
        · exact Or.inr (List.mem_cons.mpr (Or.inl h3))
        · rcases ih h3 with h4 | h4
          · exact Or.inl h4
          · exact Or.inr (List.mem_cons.mpr (Or.inr h4))

/-- Membership of identities after `insertSorted`. -/
theorem mem_trackedIds_insertSorted {i : Nat} (obj : BaseObject) (s : Tracker) :
    i ∈ trackedIds (insertSorted obj s) ↔ i = obj.id ∨ i ∈ trackedIds s := by
  induction s with
  | nil => simp [insertSorted, trackedIds]
  | cons x xs ih =>
    by_cases h1 : obj.id < x.id
    · rw [insertSorted, if_pos h1]
      simp
    · by_cases h2 : obj.id = x.id
      · rw [insertSorted, if_neg h1, if_pos h2]
        simp only [trackedIds_cons, List.mem_cons]
        constructor
        · exact Or.inr
        · rintro (h | h)
          · exact Or.inl (by omega)
          · exact h
      · rw [insertSorted, if_neg h1, if_neg h2]
        simp only [trackedIds_cons, List.mem_cons, ih]
        tauto

/-- The `insertSorted` operation preserves the strict ordering invariant of
the set. -/
theorem insertSorted_idSorted {obj : BaseObject} {s : Tracker} (h : IdSorted s) :
    IdSorted (insertSorted obj s) := by
  induction s with
  | nil => simp [insertSorted, IdSorted]
  | cons x xs ih =>
    rw [IdSorted, List.pairwise_cons] at h
    obtain ⟨hx, hxs⟩ := h
    by_cases h1 : obj.id < x.id
    · rw [insertSorted, if_pos h1, IdSorted, List.pairwise_cons]
      refine ⟨?_, List.pairwise_cons.mpr ⟨hx, hxs⟩⟩
      intro b hb
      rcases List.mem_cons.mp hb with hb' | hb'
      · exact hb' ▸ h1
      · exact h1.trans (hx b hb')
    · by_cases h2 : obj.id = x.id
      · rw [insertSorted, if_neg h1, if_pos h2]
        exact List.pairwise_cons.mpr ⟨hx, hxs⟩
      · have hgt : x.id < obj.id := by omega
        rw [insertSorted, if_neg h1, if_neg h2, IdSorted, List.pairwise_cons]
        refine ⟨?_, ih hxs⟩
        intro b hb
        rcases mem_insertSorted hb with hb' | hb'
        · exact hb' ▸ hgt
        · exact hx b hb'

/-- The result of `removeObject` is a sublist of the original collection
(erasure never adds or reorders entries). -/
theorem removeObject_sublist (s : Tracker) (objId : Nat) :
    (removeObject s objId).Sublist s := by
  induction s with
  | nil => simp [removeObject]
  | cons x xs ih =>
    simp only [removeObject]
    split
    · exact List.sublist_cons_self x xs
    · exact ih.cons₂ x

/-- `removeObject` preserves the strict ordering invariant of the set. -/
theorem removeObject_idSorted {s : Tracker} (objId : Nat) (h : IdSorted s) :
    IdSorted (removeObject s objId) :=
  List.Pairwise.sublist (removeObject_sublist s objId) h

/-- Membership of the identity list, unfolded to an existential over stored
objects. -/
theorem mem_trackedIds {i : Nat} {s : Tracker} :
    i ∈ trackedIds s ↔ ∃ o ∈ s, o.id = i := by
  simp [trackedIds]

/-- Removing an identity that is not stored leaves the collection unchanged
(translation of the `find_if` miss branch of `removeObject`). -/
theorem removeObject_not_mem {s : Tracker} {objId : Nat} (h : objId ∉ trackedIds s) :
    removeObject s objId = s := by
  induction s with
  | nil => rfl
  | cons x xs ih =>
    simp only [trackedIds_cons, List.mem_cons, not_or] at h
    simp only [removeObject]
    rw [if_neg (fun hx => h.1 hx.symm), ih h.2]

/-- Membership of identities after `removeObject`, on a sorted (hence
duplicate-free) collection. -/
theorem mem_trackedIds_removeObject {i objId : Nat} {s : Tracker} (h : IdSorted s) :
    i ∈ trackedIds (removeObject s objId) ↔ i ∈ trackedIds s ∧ i ≠ objId := by
  induction s with
  | nil => simp [removeObject, trackedIds]
  | cons x xs ih =>
    rw [IdSorted, List.pairwise_cons] at h
    obtain ⟨hx, hxs⟩ := h
    by_cases heq : x.id = objId
    · rw [removeObject, if_pos heq]
      simp only [trackedIds_cons, List.mem_cons]
      constructor
      · intro hmem
        refine ⟨Or.inr hmem, ?_⟩
        intro hij
        obtain ⟨o, ho, hoid⟩ := mem_trackedIds.mp hmem
        have := hx o ho
        omega
      · rintro ⟨h1 | h1, h2⟩
        · exact absurd (h1.trans heq) h2
        · exact h1
    · rw [removeObject, if_neg heq]
      simp only [trackedIds_cons, List.mem_cons, ih hxs]
      constructor
      · rintro (h1 | ⟨h1, h2⟩)
        · exact ⟨Or.inl h1, fun hc => heq (h1 ▸ hc)⟩
        · exact ⟨Or.inr h1, h2⟩
      · rintro ⟨h1 | h1, h2⟩
        · exact Or.inl h1
        · exact Or.inr ⟨h1, h2⟩

/-- Inserting a fresh object and then removing its identity restores the
original collection exactly. -/
theorem removeObject_insertSorted {o : BaseObject} {s : Tracker}
    (h : o.id ∉ trackedIds s) :
    removeObject (insertSorted o s) o.id = s := by
  induction s with
  | nil => simp [insertSorted, removeObject]
  | cons x xs ih =>
    simp only [trackedIds_cons, List.mem_cons, not_or] at h
    by_cases h1 : o.id < x.id
    · rw [insertSorted, if_pos h1, removeObject, if_pos rfl]
    · by_cases h2 : o.id = x.id
      · exact absurd h2 h.1
      · rw [insertSorted, if_neg h1, if_neg h2, removeObject,
          if_neg (fun hc => h.1 hc.symm), ih h.2]

/-- Inserting an object whose identity is already stored leaves the sorted
collection unchanged (the `std::set` insertion fails). -/
theorem insertSorted_mem_id {o : BaseObject} {s : Tracker} (hs : IdSorted s)
    (h : o.id ∈ trackedIds s) : insertSorted o s = s := by
  induction s with
  | nil => simp [trackedIds] at h
  | cons x xs ih =>
    rw [IdSorted, List.pairwise_cons] at hs
    obtain ⟨hx, hxs⟩ := hs
    rcases List.mem_cons.mp (trackedIds_cons x xs ▸ h) with h' | h'
    · rw [insertSorted, if_neg (by omega), if_pos h']
    · obtain ⟨b, hb, hbid⟩ := mem_trackedIds.mp h'
      have hxo : x.id < o.id := hbid ▸ hx b hb
      rw [insertSorted, if_neg (by omega), if_neg (by omega), ih hxs h']

/-- What the collecting visitor accumulates over `iterateObjects`: the prior
accumulator followed by one triple per stored object, in iteration order. -/
theorem iterateObjects_collect (s : Tracker) (acc : List (Nat × String × Nat)) :
    iterateObjects s collectReports acc
      = acc ++ s.map (fun o => (o.id, o.typeName, o.referenceCount)) := by
  induction s generalizing acc with
  | nil => simp [iterateObjects]
  | cons x xs ih =>
    simp only [iterateObjects, List.foldl_cons] at ih ⊢
    rw [ih]
    simp [collectReports]

/-- On a non-empty collection one drain iteration erases the last current
entry and applies the destructor's side effects to the remainder. -/
theorem sweepStep_cons (effect : BaseObject → Tracker → Tracker) (x : BaseObject)
    (xs : Tracker) :
    sweepStep effect (x :: xs)
      = effect ((x :: xs).getLast (List.cons_ne_nil x xs)) (x :: xs).dropLast := by
  rw [sweepStep, List.getLast?_eq_getLast (x :: xs) (List.cons_ne_nil x xs)]

/-- The drain loop empties any collection within `length` iterations, as long
as each destructor side effect only removes entries. -/
theorem sweepLoop_drains {effect : BaseObject → Tracker → Tracker}
    (heff : ∀ o t, (effect o t).Sublist t) :
    ∀ n s, s.length ≤ n → sweepLoop effect n s = [] := by
  intro n
  induction n with
  | zero =>
    intro s hs
    have h0 : s = [] := List.length_eq_zero.mp (Nat.le_zero.mp hs)
    simp [h0, sweepLoop]
  | succ n ih =>
    intro s hs
    cases s with
    | nil => simp [sweepLoop]
    | cons x xs =>
      rw [sweepLoop, if_neg (by simp), sweepStep_cons]
      apply ih
      have hsub := heff ((x :: xs).getLast (List.cons_ne_nil x xs)) (x :: xs).dropLast
      have hlen := hsub.length_le
      simp only [List.length_dropLast, List.length_cons] at hlen
      simp only [List.length_cons] at hs
      omega

/-- Generalized run of a call sequence from any sorted start state: the
ordering invariant is preserved, and an identity is stored afterwards
exactly when the liveness account starting from the initial membership says
so. -/
theorem foldl_applyOp_invariant (ops : List TrackerOp) :
    ∀ (s : Tracker) (b : Nat → Bool), IdSorted s →
      (∀ i, i ∈ trackedIds s ↔ b i = true) →
      IdSorted (ops.foldl applyOp s) ∧
      ∀ i, (i ∈ trackedIds (ops.foldl applyOp s)
        ↔ (ops.foldl (fun c op => liveStep c i op) (b i)) = true) := by
  induction ops with
  | nil =>
    intro s b hs hb
    simpa using ⟨hs, hb⟩
  | cons op ops ih =>
    intro s b hs hb
    simp only [List.foldl_cons]
    cases op with
    | add obj =>
      simp only [applyOp]
      refine ih (addObject s obj) (fun i => liveStep (b i) i (TrackerOp.add obj))
        (insertSorted_idSorted hs) ?_
      intro i
      simp only [liveStep, Bool.or_eq_true, beq_iff_eq]
      rw [addObject, mem_trackedIds_insertSorted, hb i]
      constructor
      · rintro (h | h)
        · exact Or.inr h.symm
        · exact Or.inl h
      · rintro (h | h)
        · exact Or.inr h
        · exact Or.inl h.symm
    | remove objId =>
      simp only [applyOp]
      refine ih (removeObject s objId) (fun i => liveStep (b i) i (TrackerOp.remove objId))
        (removeObject_idSorted objId hs) ?_
      intro i
      simp only [liveStep, Bool.and_eq_true, Bool.not_eq_true', beq_eq_false_iff_ne]
      rw [mem_trackedIds_removeObject hs, hb i]
      constructor
      · rintro ⟨h1, h2⟩
        exact ⟨h1, fun hc => h2 hc.symm⟩
      · rintro ⟨h1, h2⟩
        exact ⟨h1, fun hc => h2 hc.symm⟩

/-- Specialization to the empty initial registry. -/
theorem runOps_invariant (ops : List TrackerOp) :
    IdSorted (runOps ops) ∧
      ∀ i, i ∈ trackedIds (runOps ops) ↔ liveAfter ops i = true := by
  have h := foldl_applyOp_invariant ops [] (fun _ => false)
    (by simp [IdSorted]) (by simp [trackedIds])
  exact h

/-- A sorted collection has duplicate-free identities. -/
theorem idSorted_nodup {s : Tracker} (h : IdSorted s) : (trackedIds s).Nodup := by
  have hp : (trackedIds s).Pairwise (fun a b => a < b) := by
    rw [trackedIds, List.pairwise_map]
    exact h
  exact hp.imp Nat.ne_of_lt

/-! Theorems settling the claims. -/

/-- Claim C1: the shutdown sweep destroys remaining objects one at a time —
each iteration of the drain loop re-checks the current collection state (no
up-front snapshot), erases the single last current entry, and applies the
destroyed object's destructor side effects to the remainder; provided those
side effects only remove (never add) entries, the loop reaches the empty
collection within `length` iterations. -/
theorem sweep_drains_to_empty (effect : BaseObject → Tracker → Tracker) (s : Tracker)
    (heff : ∀ o t, (effect o t).Sublist t) :
    sweepLoop effect s.length s = [] :=
  sweepLoop_drains heff s.length s (Nat.le_refl _)

/-- Witness for C1: two tracked objects, with a destructor side effect that
also removes the device entry; the sweep drains everything. -/
theorem sweep_drains_to_empty_witness :
    sweepLoop exampleEffect (List.length [objDevice, objContext]) [objDevice, objContext]
      = [] :=
  sweep_drains_to_empty exampleEffect [objDevice, objContext]
    (fun _ t => List.filter_sublist t)

/-- Claim C2: removing an identity that is not currently tracked (never
added, or already removed) leaves the registry state unchanged; the
operation is total, so it cannot fail or throw. -/
theorem removeObject_untracked_noop (s : Tracker) (objId : Nat)
    (h : objId ∉ trackedIds s) :
    removeObject s objId = s :=
  removeObject_not_mem h

/-- Witness for C2: removing the untracked identity 2 from a registry holding
only the device leaves it unchanged. -/
theorem removeObject_untracked_noop_witness :
    2 ∉ trackedIds [objDevice] ∧ removeObject [objDevice] 2 = [objDevice] :=
  ⟨by decide, removeObject_untracked_noop [objDevice] 2 (by decide)⟩

/-- Claim C3: over any sequence of add and remove calls whose added objects
have pairwise distinct identities, the registry never stores the same
identity twice, an identity is stored exactly when it has been added and
not removed afterwards, and consequently `iterateObjects` never reports two
entries with the same identity. -/
theorem tracker_uniqueness_invariant (ops : List TrackerOp)
    (hdistinct : (addedIds ops).Nodup) :
    (trackedIds (runOps ops)).Nodup ∧
      (∀ i, i ∈ trackedIds (runOps ops) ↔ liveAfter ops i = true) ∧
      ((iterateObjects (runOps ops) collectReports []).map (fun t => t.1)).Nodup := by
  obtain ⟨hsorted, hmem⟩ := runOps_invariant ops
  refine ⟨idSorted_nodup hsorted, hmem, ?_⟩
  rw [iterateObjects_collect, List.nil_append, List.map_map]
  exact idSorted_nodup hsorted

/-- Witness for C3: the sequence add device, add context, remove device. -/
theorem tracker_uniqueness_invariant_witness :
    (addedIds [TrackerOp.add objDevice, TrackerOp.add objContext,
        TrackerOp.remove objDevice.id]).Nodup ∧
      ((trackedIds (runOps [TrackerOp.add objDevice, TrackerOp.add objContext,
          TrackerOp.remove objDevice.id])).Nodup ∧
        (∀ i, i ∈ trackedIds (runOps [TrackerOp.add objDevice, TrackerOp.add objContext,
            TrackerOp.remove objDevice.id])
          ↔ liveAfter [TrackerOp.add objDevice, TrackerOp.add objContext,
              TrackerOp.remove objDevice.id] i = true) ∧
        ((iterateObjects (runOps [TrackerOp.add objDevice, TrackerOp.add objContext,
            TrackerOp.remove objDevice.id]) collectReports []).map (fun t => t.1)).Nodup) :=
  ⟨by decide, tracker_uniqueness_invariant _ (by decide)⟩

/-- Claim C4: adding a not-yet-tracked object and then removing it restores
the previous registry state exactly, so the round trip is invisible to
`iterateObjects` (and every other observation). -/
theorem add_remove_round_trip (s : Tracker) (o : BaseObject)
    (h : o.id ∉ trackedIds s) :
    removeObject (addObject s o) o.id = s ∧
      iterateObjects (removeObject (addObject s o) o.id) collectReports []
        = iterateObjects s collectReports [] := by
  have hstate : removeObject (addObject s o) o.id = s := removeObject_insertSorted h
  exact ⟨hstate, by rw [hstate]⟩

/-- Witness for C4: adding and removing the context on a registry holding the
device restores the original single-entry state. -/
theorem add_remove_round_trip_witness :
    objContext.id ∉ trackedIds [objDevice] ∧
      (removeObject (addObject [objDevice] objContext) objContext.id = [objDevice] ∧
        iterateObjects (removeObject (addObject [objDevice] objContext) objContext.id)
            collectReports []
          = iterateObjects [objDevice] collectReports []) :=
  ⟨by decide, add_remove_round_trip [objDevice] objContext (by decide)⟩

/-- Claim C5: a full iteration pass invokes the visitor exactly once per
stored object, in iteration order, handing it the identity token, the type
name and the reference count; the reported triples are exactly the stored
objects, both through `iterateObjects` and through the public
`clReportLiveObjectsAltera` entry point. -/
theorem iterateObjects_reports_all (platform : Nat) (s : Tracker) :
    iterateObjects s collectReports []
        = s.map (fun o => (o.id, o.typeName, o.referenceCount)) ∧
      (iterateObjects s collectReports []).length = s.length ∧
      clReportLiveObjectsAltera platform s collectReports []
        = s.map (fun o => (o.id, o.typeName, o.referenceCount)) := by
  have h : iterateObjects s collectReports []
      = s.map (fun o => (o.id, o.typeName, o.referenceCount)) := by
    rw [iterateObjects_collect, List.nil_append]
  exact ⟨h, by rw [h, List.length_map], h⟩

/-- Claim C6: `findTrackedObject` scans the stored objects in iteration
order; it returns `none` exactly when no stored object satisfies the
predicate (in particular on the empty collection), and whenever it returns
an object, that object satisfies the predicate and every object before it
in iteration order does not. -/
theorem findTrackedObject_first_match (s : Tracker) (pred : BaseObject → Bool) :
    (findTrackedObject s pred = none ↔ ∀ o ∈ s, pred o = false) ∧
      ∀ o, findTrackedObject s pred = some o ↔
        pred o = true ∧ ∃ l₁ l₂, s = l₁ ++ o :: l₂ ∧ ∀ x ∈ l₁, pred x = false := by
  induction s with
  | nil =>
    refine ⟨by simp [findTrackedObject], fun o => ?_⟩
    constructor
    · intro h
      simp [findTrackedObject] at h
    · rintro ⟨-, l₁, l₂, heq, -⟩
      exact absurd heq (by simp)
  | cons x xs ih =>
    by_cases hx : pred x = true
    · refine ⟨?_, fun o => ?_⟩
      · rw [findTrackedObject, if_pos hx]
        constructor
        · intro h
          exact absurd h (by simp)
        · intro hall
          exact absurd (hall x (List.mem_cons_self x xs)) (by simp [hx])
      · rw [findTrackedObject, if_pos hx]
        constructor
        · intro h
          obtain rfl : x = o := Option.some.inj h
          exact ⟨hx, [], xs, rfl, by simp⟩
        · rintro ⟨hp, l₁, l₂, heq, hall⟩
          cases l₁ with
          | nil =>
            obtain rfl : x = o := by simpa using congrArg (fun l => l.head?) heq
            rfl
          | cons y l₁ =>
            have hxy : x = y := by simpa using congrArg (fun l => l.head?) heq
            have : pred x = false := hxy ▸ hall y (List.mem_cons_self y l₁)
            simp [hx] at this
    · have hx' : pred x = false := by simpa using hx
      obtain ⟨ihnone, ihsome⟩ := ih
      refine ⟨?_, fun o => ?_⟩
      · rw [findTrackedObject, if_neg hx, ihnone]
        constructor
        · intro hall o ho
          rcases List.mem_cons.mp ho with rfl | ho'
          · exact hx'
          · exact hall o ho'
        · intro hall o ho
          exact hall o (List.mem_cons.mpr (Or.inr ho))
      · rw [findTrackedObject, if_neg hx, ihsome o]
        constructor
        · rintro ⟨hp, l₁, l₂, heq, hall⟩
          refine ⟨hp, x :: l₁, l₂, by rw [List.cons_append, heq], ?_⟩
          intro y hy
          rcases List.mem_cons.mp hy with rfl | hy'
          · exact hx'
          · exact hall y hy'
        · rintro ⟨hp, l₁, l₂, heq, hall⟩
          cases l₁ with
          | nil =>
            obtain rfl : x = o := by simpa using congrArg (fun l => l.head?) heq
            simp [hx'] at hp
          | cons y l₁ =>
            have hxy : x = y := by simpa using congrArg (fun l => l.head?) heq
            have htail : xs = l₁ ++ o :: l₂ := by simpa using congrArg (fun l => l.tail) heq
            exact ⟨hp, l₁, l₂, htail, fun z hz => hall z (List.mem_cons.mpr (Or.inr hz))⟩

/-- Counterexample to claim C7 as stated: with debug logging disabled, a
registry holding one leaked object delivers no leak report at shutdown, so
leak reporting is not unconditional on configuration (it is gated on
`isDebugLogEnabled()`), and the report that is emitted when logging is
enabled carries only the reference count and type name, not the identity. -/
theorem leak_report_not_unconditional :
    shutdownLeakReports false [objQueue] = [] ∧ [objQueue] ≠ ([] : Tracker) :=
  ⟨rfl, by simp⟩

/-- Claim C7 as amended: at shutdown, when debug logging is enabled, exactly
one leak report per still-tracked object is delivered to the diagnostic
sink, carrying the object's reference count and type name (the identity is
not part of the report); when debug logging is disabled, nothing is
reported; the sweep itself is a total function and does not abort. -/
theorem leak_reports_debug_gated (s : Tracker) :
    shutdownLeakReports true s = s.map (fun o => (o.referenceCount, o.typeName)) ∧
      (shutdownLeakReports true s).length = s.length ∧
      shutdownLeakReports false s = [] := by
  cases s with
  | nil => exact ⟨rfl, rfl, rfl⟩
  | cons x xs => exact ⟨rfl, by simp [shutdownLeakReports], rfl⟩

/-- Counterexample to claim C8 as stated: not every operation that touches
the tracked-object collection acquires the tracker lock first — the
shutdown sweep (the destructor `~ObjectTracker`) reads and erases from
`liveObjects` without any `lock_guard`. -/
theorem lock_discipline_counterexample :
    ¬ (([addObjectEvents, removeObjectEvents, iterateObjectsEvents,
        findTrackedObjectEvents, shutdownSweepEvents].all acquiresBeforeTouch) = true) := by
  decide

/-- Claim C8 as amended: `addObject`, `removeObject`, `iterateObjects` and
`findTrackedObject` each acquire the process-wide recursive tracker lock
before touching the collection, but the shutdown sweep touches the
collection without acquiring the lock. -/
theorem lock_discipline_amended :
    (([addObjectEvents, removeObjectEvents, iterateObjectsEvents,
        findTrackedObjectEvents].all acquiresBeforeTouch) = true) ∧
      acquiresBeforeTouch shutdownSweepEvents = false := by
  decide

/-- Claim C9: adding an object whose identity is already tracked leaves the
collection unchanged (the `std::set` insertion of a duplicate key fails),
so the tracked identities are unaffected. -/
theorem addObject_duplicate_id_noop (s : Tracker) (o : BaseObject)
    (hs : IdSorted s) (h : o.id ∈ trackedIds s) :
    addObject s o = s ∧ trackedIds (addObject s o) = trackedIds s := by
  have hstate : insertSorted o s = s := insertSorted_mem_id hs h
  exact ⟨hstate, by rw [addObject, hstate]⟩

/-- Witness for C9: adding a second object with the context's identity to a
registry holding the device and the context changes nothing. -/
theorem addObject_duplicate_id_noop_witness :
    IdSorted [objDevice, objContext] ∧ (2 : Nat) ∈ trackedIds [objDevice, objContext] ∧
      (addObject [objDevice, objContext] ⟨2, "queue", 5⟩ = [objDevice, objContext] ∧
        trackedIds (addObject [objDevice, objContext] ⟨2, "queue", 5⟩)
          = trackedIds [objDevice, objContext]) :=
  ⟨by simp only [IdSorted]; decide, by decide,
    addObject_duplicate_id_noop [objDevice, objContext] ⟨2, "queue", 5⟩
      (by simp only [IdSorted]; decide) (by decide)⟩

/-- Claim C10: the external tracking-enable entry point
`clTrackLiveObjectsAltera` has an empty body (tracking is always active),
so it returns the registry state unchanged for every platform argument. -/
theorem clTrackLiveObjectsAltera_noop (platform : Nat) (s : Tracker) :
    clTrackLiveObjectsAltera platform s = s := rfl

end VC4CL
